import Mathlib

/-!
Verification of the frame-luminance analysis engine of `measure-hdr`
(`src/main.rs`): the ST 2084 PQ transform, the per-frame statistics
reduction, the clip-level aggregation computed in `plot`, and the
flush phase of the decode loop of `main`.

Modelling conventions:
* `f64` values are modelled as real numbers; the quantities produced by
  `FrameInfo::parse_frame` are exact rationals (code value divided by 1023),
  so `FrameInfo` carries `ℚ` fields and the `plot` aggregation casts to `ℝ`
  before applying `pq_to_nits`.
* `u16` samples are `Nat`s; `usize` accumulation wraps at `2 ^ 64`
  (release-mode Rust semantics), written as an explicit `% 2 ^ 64`.
* Rust panics (`sum / frame.len()` with an empty frame, `Option::unwrap`
  on `None` in `plot`) are modelled with `Except String`, carrying the
  panic message.
-/

namespace MeasureHdr

/-- Constant `ST2084_Y_MAX` from src/main.rs line 11. -/
noncomputable def ST2084_Y_MAX : ℝ := 10000.0

/-- Constant `ST2084_M1` from src/main.rs line 12. -/
noncomputable def ST2084_M1 : ℝ := 2610.0 / 16384.0

/-- Constant `ST2084_M2` from src/main.rs line 13. -/
noncomputable def ST2084_M2 : ℝ := (2523.0 / 4096.0) * 128.0

/-- Constant `ST2084_C1` from src/main.rs line 14. -/
noncomputable def ST2084_C1 : ℝ := 3424.0 / 4096.0

/-- Constant `ST2084_C2` from src/main.rs line 15. -/
noncomputable def ST2084_C2 : ℝ := (2413.0 / 4096.0) * 32.0

/-- Constant `ST2084_C3` from src/main.rs line 16. -/
noncomputable def ST2084_C3 : ℝ := (2392.0 / 4096.0) * 32.0

/-- Function `pq_to_nits` from src/main.rs lines 22-30.  `pq.clamp(0.0, 1.0)` is
`min (max pq 0) 1`; `f64::powf` on the nonnegative bases that occur here is
real exponentiation `Real.rpow`. -/
noncomputable def pq_to_nits (pq : ℝ) : ℝ :=
  let pqc := min (max pq 0) 1
  let v_p := pqc ^ ((1 : ℝ) / ST2084_M2)
  let n := (max (v_p - ST2084_C1) 0 / (ST2084_C2 - ST2084_C3 * v_p)) ^ ((1 : ℝ) / ST2084_M1)
  n * ST2084_Y_MAX

/-- Function `nits_to_pq` from src/main.rs lines 39-44. -/
noncomputable def nits_to_pq (nits : ℝ) : ℝ :=
  let y := nits / ST2084_Y_MAX
  ((ST2084_C1 + ST2084_C2 * y ^ ST2084_M1) / (1 + ST2084_C3 * y ^ ST2084_M1)) ^ ST2084_M2

/-- Function `yuv420_10bit_to_pq` from src/main.rs lines 32-37: clamp the sample to
`[0, 1023]` and divide by 1023.  The value is an exact rational. -/
def yuv420_10bit_to_pq (sample : Nat) : ℚ :=
  min (max (sample : ℚ) 0) 1023 / 1023

/-- Structure `FrameInfo` from src/main.rs lines 46-51, fields in source order. -/
structure FrameInfo where
  max : ℚ
  min : ℚ
  avg : ℚ
deriving DecidableEq, Repr

/-- The loop of `FrameInfo::parse_frame` (src/main.rs lines 55-63):
`sum` is a `usize` (wraps at `2 ^ 64`), `max` starts at `0`,
`min` starts at `u16::MAX = 65535`. -/
def reduceTriple (frame : List Nat) : Nat × Nat × Nat :=
  frame.foldl
    (fun acc sample => ((acc.1 + sample) % 2 ^ 64, max acc.2.1 sample, min acc.2.2 sample))
    (0, 0, 65535)

/-- The record built by `FrameInfo::parse_frame` after its loop
(src/main.rs lines 65-71): `avg = (sum / frame.len()) as u16` (`usize`
division, then truncating cast to `u16`, i.e. `% 2 ^ 16`), and each of the
three values goes through `yuv420_10bit_to_pq`. -/
def frameStats (frame : List Nat) : FrameInfo :=
  { max := yuv420_10bit_to_pq (reduceTriple frame).2.1
    min := yuv420_10bit_to_pq (reduceTriple frame).2.2
    avg := yuv420_10bit_to_pq (((reduceTriple frame).1 / frame.length) % 2 ^ 16) }

/-- Model of `FrameInfo::parse_frame` (src/main.rs lines 54-72).  On an empty frame
the expression `sum / frame.len()` divides by zero, which panics;
the panic is modelled as an error with the Rust panic message. -/
def parse_frame (frame : List Nat) : Except String FrameInfo :=
  if frame.length = 0 then Except.error "attempt to divide by zero"
  else Except.ok (frameStats frame)

/-- The five clip-level scalars computed inside `plot`
(src/main.rs lines 228-245), field names as in the source. -/
structure ClipStats where
  maxfall : ℝ
  maxfall_avg : ℝ
  maxcll : ℝ
  maxcll_avg : ℝ
  max_min : ℝ

/-- The clip-level aggregation of `plot` (src/main.rs lines 228-245):
each `results.iter().map(..).max().unwrap()` is `List.max?` (`FloatOrd`
is the ordinary order on the rational values that occur), panicking on an
empty `results`; the `_avg` fields divide the `f64` sum by
`results.len() as f64`; every scalar then goes through `pq_to_nits`. -/
noncomputable def clipStats (results : List FrameInfo) : Except String ClipStats :=
  match (results.map FrameInfo.avg).max?, (results.map FrameInfo.max).max?,
      (results.map FrameInfo.min).max? with
  | some avgMax, some maxMax, some minMax =>
      Except.ok
        { maxfall := pq_to_nits (avgMax : ℝ)
          maxfall_avg := pq_to_nits (((results.map FrameInfo.avg).sum / (results.length : ℚ) : ℚ) : ℝ)
          maxcll := pq_to_nits (maxMax : ℝ)
          maxcll_avg := pq_to_nits (((results.map FrameInfo.max).sum / (results.length : ℚ) : ℚ) : ℝ)
          max_min := pq_to_nits (minMax : ℝ) }
  | _, _, _ => Except.error "called Option::unwrap() on a None value"

/-- The mutable state of the decode loop of `main` that the flush phase touches
(src/main.rs lines 102-104): the frame counter and the results vector. -/
structure PipelineState where
  frame_count : Nat
  results : List FrameInfo
deriving DecidableEq, Repr

/-- The flush phase of `main` (src/main.rs lines 137-141): after
`send_eof`, each frame still delivered by `receive_frame` is counted and
logged, and nothing else is done with it. -/
def flushFrames (buffered : List (List Nat)) (s : PipelineState) : PipelineState :=
  buffered.foldl (fun st _frame => { st with frame_count := st.frame_count + 1 }) s

/-- Naive sequential minimum scan over the samples (reference formulation
from the spec, "verify against a naive sequential scan").  Returns `65535`
on the empty list so that it is total. -/
def naiveMin : List Nat → Nat
  | [] => 65535
  | x :: xs => min x (naiveMin xs)

/-- Naive sequential maximum scan over the samples. -/
def naiveMax : List Nat → Nat
  | [] => 0
  | x :: xs => max x (naiveMax xs)

/-- Naive sequential maximum of a non-empty list of rationals (reference
formulation for the clip-level maxima); `0` on the empty list. -/
def qListMax : List ℚ → ℚ
  | [] => 0
  | [x] => x
  | x :: y :: xs => max x (qListMax (y :: xs))

/-- Local partition reduce as the spec states it: one `(min, max, sum)` triple per
contiguous partition, with the same initial values as the source loop. -/
def localTriple (part : List Nat) : Nat × Nat × Nat :=
  part.foldl (fun acc x => (min acc.1 x, max acc.2.1 x, acc.2.2 + x)) (65535, 0, 0)

/-- Combine operator of the spec on `(min, max, sum)` triples:
`combine((a_min,a_max,a_sum),(b_min,b_max,b_sum)) =
(min(a_min,b_min), max(a_max,b_max), a_sum+b_sum)`. -/
def combine (a b : Nat × Nat × Nat) : Nat × Nat × Nat :=
  (min a.1 b.1, max a.2.1 b.2.1, a.2.2 + b.2.2)

/-- The transform written exactly as the spec states it (§4.1):
clamp to `[0,1]`, then `v = pq^(1/m2)`, `n = max(0, v − c1)/(c2 − c3·v)`,
`nits = n^(1/m1) · 10000`, with `m1 = 2610/16384`, `m2 = (2523/4096)·128`,
`c1 = 3424/4096`, `c2 = (2413/4096)·32`, `c3 = (2392/4096)·32`.
Used only to compare against `pq_to_nits` (refinement claim). -/
noncomputable def pq_to_nits_formula (pq : ℝ) : ℝ :=
  let pqc := max 0 (min pq 1)
  let v := pqc ^ ((1 : ℝ) / ((2523 / 4096) * 128))
  let n := max 0 (v - 3424 / 4096) / ((2413 / 4096) * 32 - (2392 / 4096) * 32 * v)
  n ^ ((1 : ℝ) / (2610 / 16384)) * 10000

/-- Predicate `charsMatch pat cs` holds when `pat` occurs at the head of `cs`. -/
def charsMatch : List Char → List Char → Bool
  | [], _ => true
  | _ :: _, [] => false
  | p :: ps, c :: cs => p = c && charsMatch ps cs

/-- Predicate `mentionsToken tok msg` holds when `tok` occurs somewhere inside `msg`;
used to state whether a diagnostic message mentions its cause. -/
def mentionsToken (tok : List Char) : List Char → Bool
  | [] => charsMatch tok []
  | c :: cs => charsMatch tok (c :: cs) || mentionsToken tok cs

/-! ### Closed forms for the reduction loops -/

theorem reduceTriple_foldl (l : List Nat) : ∀ a m n, a < 2 ^ 64 →
    l.foldl
      (fun acc sample => ((acc.1 + sample) % 2 ^ 64, max acc.2.1 sample, min acc.2.2 sample))
      (a, m, n)
    = ((a + l.sum) % 2 ^ 64, l.foldl max m, l.foldl min n) := by
  induction l with
  | nil =>
      intro a m n ha
      simp only [List.foldl_nil, List.sum_nil, Nat.add_zero]
      rw [Nat.mod_eq_of_lt ha]
  | cons x xs ih =>
      intro a m n ha
      simp only [List.foldl_cons, List.sum_cons]
      rw [ih ((a + x) % 2 ^ 64) (max m x) (min n x) (Nat.mod_lt _ (by norm_num)),
        Nat.mod_add_mod, Nat.add_assoc]

theorem foldl_max_naive (l : List Nat) : ∀ m, l.foldl max m = max m (naiveMax l) := by
  induction l with
  | nil => intro m; simp [naiveMax]
  | cons x xs ih =>
      intro m
      simp only [List.foldl_cons, naiveMax]
      rw [ih (max m x), max_assoc]

theorem naiveMin_le_top (l : List Nat) : naiveMin l ≤ 65535 := by
  induction l with
  | nil => simp [naiveMin]
  | cons x xs ih =>
      simp only [naiveMin]
      exact le_trans (min_le_right x _) ih

theorem foldl_min_naive (l : List Nat) : ∀ n, n ≤ 65535 → l.foldl min n = min n (naiveMin l) := by
  induction l with
  | nil =>
      intro n hn
      simp [naiveMin, min_eq_left hn]
  | cons x xs ih =>
      intro n hn
      simp only [List.foldl_cons, naiveMin]
      rw [ih (min n x) (le_trans (min_le_left n x) hn), min_assoc]

theorem reduceTriple_closed (l : List Nat) :
    reduceTriple l = (l.sum % 2 ^ 64, naiveMax l, naiveMin l) := by
  unfold reduceTriple
  rw [reduceTriple_foldl l 0 0 65535 (by norm_num), Nat.zero_add, foldl_max_naive,
    foldl_min_naive l 65535 le_rfl, Nat.zero_max, min_eq_right (naiveMin_le_top l)]

theorem naiveMin_le_mem (l : List Nat) (x : Nat) (hx : x ∈ l) : naiveMin l ≤ x := by
  induction l with
  | nil => cases hx
  | cons y ys ih =>
      rcases List.mem_cons.mp hx with h | h
      · subst h; exact min_le_left _ _
      · exact le_trans (min_le_right _ _) (ih h)

theorem mem_le_naiveMax (l : List Nat) (x : Nat) (hx : x ∈ l) : x ≤ naiveMax l := by
  induction l with
  | nil => cases hx
  | cons y ys ih =>
      rcases List.mem_cons.mp hx with h | h
      · subst h; exact le_max_left _ _
      · exact le_trans (ih h) (le_max_right _ _)

theorem naiveMax_le_bound (l : List Nat) (c : Nat) (hc : ∀ x ∈ l, x ≤ c) : naiveMax l ≤ c := by
  induction l with
  | nil => simp [naiveMax]
  | cons x xs ih =>
      simp only [naiveMax]
      exact max_le (hc x (List.mem_cons_self x xs))
        (ih fun y hy => hc y (List.mem_cons_of_mem x hy))

theorem naiveMin_mul_length_le (l : List Nat) : naiveMin l * l.length ≤ l.sum := by
  induction l with
  | nil => simp
  | cons x xs ih =>
      simp only [naiveMin, List.length_cons, List.sum_cons]
      have h1 : min x (naiveMin xs) ≤ x := min_le_left _ _
      have h2 : min x (naiveMin xs) * xs.length ≤ naiveMin xs * xs.length :=
        Nat.mul_le_mul_right _ (min_le_right _ _)
      calc min x (naiveMin xs) * (xs.length + 1)
          = min x (naiveMin xs) + min x (naiveMin xs) * xs.length := by ring
        _ ≤ x + naiveMin xs * xs.length := Nat.add_le_add h1 h2
        _ ≤ x + xs.sum := Nat.add_le_add_left ih x

theorem sum_le_naiveMax_mul (l : List Nat) : l.sum ≤ naiveMax l * l.length := by
  induction l with
  | nil => simp
  | cons x xs ih =>
      simp only [naiveMax, List.length_cons, List.sum_cons]
      have h1 : x ≤ max x (naiveMax xs) := le_max_left _ _
      have h2 : naiveMax xs * xs.length ≤ max x (naiveMax xs) * xs.length :=
        Nat.mul_le_mul_right _ (le_max_right _ _)
      calc x + xs.sum ≤ x + naiveMax xs * xs.length := Nat.add_le_add_left ih x
        _ ≤ max x (naiveMax xs) + max x (naiveMax xs) * xs.length := Nat.add_le_add h1 h2
        _ = max x (naiveMax xs) * (xs.length + 1) := by ring

/-! ### Properties of the sample-to-PQ normalization -/

theorem yuv420_mono {a b : Nat} (h : a ≤ b) :
    yuv420_10bit_to_pq a ≤ yuv420_10bit_to_pq b := by
  unfold yuv420_10bit_to_pq
  have hab : (a : ℚ) ≤ b := by exact_mod_cast h
  rw [div_le_div_iff_of_pos_right (by norm_num)]
  exact min_le_min (max_le_max hab le_rfl) le_rfl

theorem yuv420_nonneg (s : Nat) : 0 ≤ yuv420_10bit_to_pq s := by
  unfold yuv420_10bit_to_pq
  exact div_nonneg (le_min (le_max_right _ _) (by norm_num)) (by norm_num)

theorem yuv420_le_one (s : Nat) : yuv420_10bit_to_pq s ≤ 1 := by
  unfold yuv420_10bit_to_pq
  rw [div_le_one (by norm_num)]
  exact min_le_right _ _

theorem yuv420_eq_of_le {s : Nat} (h : s ≤ 1023) :
    yuv420_10bit_to_pq s = (s : ℚ) / 1023 := by
  unfold yuv420_10bit_to_pq
  rw [max_eq_left (by positivity), min_eq_left (by exact_mod_cast h)]

/-! ### Closed form of `frameStats` on a well-formed frame -/

theorem frameStats_of_bound (l : List Nat) (hne : l ≠ [])
    (hrange : ∀ x ∈ l, x ≤ 1023) (hlen : 1023 * l.length < 2 ^ 64) :
    l.sum < 2 ^ 64
    ∧ l.sum / l.length ≤ 1023
    ∧ frameStats l =
      { max := yuv420_10bit_to_pq (naiveMax l)
        min := yuv420_10bit_to_pq (naiveMin l)
        avg := yuv420_10bit_to_pq (l.sum / l.length) } := by
  have hlen0 : 0 < l.length := List.length_pos.mpr hne
  have hmax1023 : naiveMax l ≤ 1023 := naiveMax_le_bound l 1023 hrange
  have hsum_le : l.sum ≤ 1023 * l.length :=
    le_trans (sum_le_naiveMax_mul l) (Nat.mul_le_mul_right _ hmax1023)
  have hsum_lt : l.sum < 2 ^ 64 := lt_of_le_of_lt hsum_le hlen
  have havg_le : l.sum / l.length ≤ 1023 := by
    calc l.sum / l.length ≤ 1023 * l.length / l.length := Nat.div_le_div_right hsum_le
      _ = 1023 := Nat.mul_div_cancel 1023 hlen0
  refine ⟨hsum_lt, havg_le, ?_⟩
  unfold frameStats
  rw [reduceTriple_closed, Nat.mod_eq_of_lt hsum_lt]
  have hmod : l.sum / l.length % 2 ^ 16 = l.sum / l.length :=
    Nat.mod_eq_of_lt (lt_of_le_of_lt havg_le (by norm_num))
  rw [hmod]

theorem parse_frame_ok (l : List Nat) (hne : l ≠ []) :
    parse_frame l = Except.ok (frameStats l) := by
  unfold parse_frame
  rw [if_neg (Nat.pos_iff_ne_zero.mp (List.length_pos.mpr hne))]

/-- Claim C1 (amended): for every non-empty sequence of samples in `[0, 1023]`
whose worst-case sum `1023 · len` fits in the 64-bit accumulator,
`parse_frame` succeeds with `min ≤ avg ≤ max`, and the `min`/`max` fields
equal the minimum/maximum of a naive sequential scan put through the unit
conversion `yuv420_10bit_to_pq`.  (The fitting hypothesis is forced: the
`usize` accumulator wraps on astronomically long frames, see the
counterexample.) -/
theorem parse_frame_reduction_correct (l : List Nat) (hne : l ≠ [])
    (hrange : ∀ x ∈ l, x ≤ 1023) (hlen : 1023 * l.length < 2 ^ 64) :
    parse_frame l = Except.ok (frameStats l)
    ∧ (frameStats l).min ≤ (frameStats l).avg
    ∧ (frameStats l).avg ≤ (frameStats l).max
    ∧ (frameStats l).min = yuv420_10bit_to_pq (naiveMin l)
    ∧ (frameStats l).max = yuv420_10bit_to_pq (naiveMax l) := by
  obtain ⟨hsum_lt, havg_le, hfs⟩ := frameStats_of_bound l hne hrange hlen
  have hlen0 : 0 < l.length := List.length_pos.mpr hne
  have hmin_avg : naiveMin l ≤ l.sum / l.length :=
    (Nat.le_div_iff_mul_le hlen0).mpr (naiveMin_mul_length_le l)
  have havg_max : l.sum / l.length ≤ naiveMax l := by
    calc l.sum / l.length ≤ naiveMax l * l.length / l.length :=
          Nat.div_le_div_right (sum_le_naiveMax_mul l)
      _ = naiveMax l := Nat.mul_div_cancel _ hlen0
  have hminf : (frameStats l).min = yuv420_10bit_to_pq (naiveMin l) := by rw [hfs]
  have hmaxf : (frameStats l).max = yuv420_10bit_to_pq (naiveMax l) := by rw [hfs]
  have havgf : (frameStats l).avg = yuv420_10bit_to_pq (l.sum / l.length) := by rw [hfs]
  refine ⟨parse_frame_ok l hne, ?_, ?_, hminf, hmaxf⟩
  · rw [hminf, havgf]; exact yuv420_mono hmin_avg
  · rw [havgf, hmaxf]; exact yuv420_mono havg_max

/-- Witness for `parse_frame_reduction_correct` at the concrete frame
`[0, 1023]`. -/
theorem parse_frame_reduction_correct_witness :
    parse_frame [0, 1023] = Except.ok (frameStats [0, 1023])
    ∧ (frameStats [0, 1023]).min ≤ (frameStats [0, 1023]).avg
    ∧ (frameStats [0, 1023]).avg ≤ (frameStats [0, 1023]).max
    ∧ (frameStats [0, 1023]).min = yuv420_10bit_to_pq (naiveMin [0, 1023])
    ∧ (frameStats [0, 1023]).max = yuv420_10bit_to_pq (naiveMax [0, 1023]) :=
  parse_frame_reduction_correct [0, 1023] (by simp) (by decide) (by norm_num)

/-- Claim C9: the running sum of `parse_frame` is a 64-bit-wide accumulator;
if `1023 · len(samples)` fits below `2 ^ 64` and every sample is in
`[0, 1023]`, the summation never wraps (the accumulator holds the exact
sum) and the mean underlying the `avg` field is `sum / len(samples)`
(integer truncation). -/
theorem parse_frame_overflow_safe (l : List Nat) (hne : l ≠ [])
    (hrange : ∀ x ∈ l, x ≤ 1023) (hlen : 1023 * l.length < 2 ^ 64) :
    l.sum < 2 ^ 64
    ∧ (reduceTriple l).1 = l.sum
    ∧ parse_frame l = Except.ok (frameStats l)
    ∧ (frameStats l).avg = yuv420_10bit_to_pq (l.sum / l.length) := by
  obtain ⟨hsum_lt, havg_le, hfs⟩ := frameStats_of_bound l hne hrange hlen
  refine ⟨hsum_lt, ?_, parse_frame_ok l hne, by rw [hfs]⟩
  rw [reduceTriple_closed]
  exact Nat.mod_eq_of_lt hsum_lt

/-- Witness for `parse_frame_overflow_safe` at the concrete frame
`[1, 2, 3]`. -/
theorem parse_frame_overflow_safe_witness :
    [1, 2, 3].sum < 2 ^ 64
    ∧ (reduceTriple [1, 2, 3]).1 = [1, 2, 3].sum
    ∧ parse_frame [1, 2, 3] = Except.ok (frameStats [1, 2, 3])
    ∧ (frameStats [1, 2, 3]).avg = yuv420_10bit_to_pq ([1, 2, 3].sum / [1, 2, 3].length) :=
  parse_frame_overflow_safe [1, 2, 3] (by simp) (by decide) (by norm_num)

/-- Claim C10: on every non-empty slice of `u16` samples — including samples
above 1023 — `parse_frame` returns normally, every field of the returned
`FrameInfo` lies in `[0, 1]` (the fields are PQ code fractions: code value
clamped to `[0, 1023]` then divided by 1023, not nits), and the `avg`
field is the conversion of the integer-truncated mean of the accumulator
value. -/
theorem parse_frame_fields_normalized (l : List Nat) (hne : l ≠ [])
    (hu16 : ∀ x ∈ l, x ≤ 65535) :
    parse_frame l = Except.ok (frameStats l)
    ∧ 0 ≤ (frameStats l).max ∧ (frameStats l).max ≤ 1
    ∧ 0 ≤ (frameStats l).min ∧ (frameStats l).min ≤ 1
    ∧ 0 ≤ (frameStats l).avg ∧ (frameStats l).avg ≤ 1
    ∧ (frameStats l).max = yuv420_10bit_to_pq (naiveMax l)
    ∧ (frameStats l).min = yuv420_10bit_to_pq (naiveMin l)
    ∧ (frameStats l).avg = yuv420_10bit_to_pq (l.sum % 2 ^ 64 / l.length) := by
  have hlen0 : 0 < l.length := List.length_pos.mpr hne
  have hsum_le : l.sum ≤ 65535 * l.length :=
    le_trans (sum_le_naiveMax_mul l)
      (Nat.mul_le_mul_right _ (naiveMax_le_bound l 65535 hu16))
  have hq : l.sum % 2 ^ 64 / l.length < 65536 := by
    rw [Nat.div_lt_iff_lt_mul hlen0]
    have h64 : (2 : ℕ) ^ 64 = 18446744073709551616 := by norm_num
    rw [h64]
    omega
  have hfs : frameStats l =
      { max := yuv420_10bit_to_pq (naiveMax l)
        min := yuv420_10bit_to_pq (naiveMin l)
        avg := yuv420_10bit_to_pq (l.sum % 2 ^ 64 / l.length) } := by
    unfold frameStats
    rw [reduceTriple_closed]
    have hmod : l.sum % 2 ^ 64 / l.length % 2 ^ 16 = l.sum % 2 ^ 64 / l.length :=
      Nat.mod_eq_of_lt (by exact_mod_cast hq)
    rw [hmod]
  refine ⟨parse_frame_ok l hne, ?_, ?_, ?_, ?_, ?_, ?_, by rw [hfs], by rw [hfs], by rw [hfs]⟩
  all_goals rw [hfs]
  · exact yuv420_nonneg _
  · exact yuv420_le_one _
  · exact yuv420_nonneg _
  · exact yuv420_le_one _
  · exact yuv420_nonneg _
  · exact yuv420_le_one _

/-- Witness for `parse_frame_fields_normalized` at the concrete frame
`[65535, 2000]`, whose samples exceed 1023. -/
theorem parse_frame_fields_normalized_witness :
    parse_frame [65535, 2000] = Except.ok (frameStats [65535, 2000])
    ∧ 0 ≤ (frameStats [65535, 2000]).max ∧ (frameStats [65535, 2000]).max ≤ 1
    ∧ 0 ≤ (frameStats [65535, 2000]).min ∧ (frameStats [65535, 2000]).min ≤ 1
    ∧ 0 ≤ (frameStats [65535, 2000]).avg ∧ (frameStats [65535, 2000]).avg ≤ 1
    ∧ (frameStats [65535, 2000]).max = yuv420_10bit_to_pq (naiveMax [65535, 2000])
    ∧ (frameStats [65535, 2000]).min = yuv420_10bit_to_pq (naiveMin [65535, 2000])
    ∧ (frameStats [65535, 2000]).avg =
      yuv420_10bit_to_pq ([65535, 2000].sum % 2 ^ 64 / [65535, 2000].length) :=
  parse_frame_fields_normalized [65535, 2000] (by simp) (by decide)

theorem naiveMax_replicate (n c : Nat) : naiveMax (List.replicate (n + 1) c) = c := by
  induction n with
  | zero => simp [naiveMax]
  | succ k ih => rw [List.replicate_succ, naiveMax, ih, max_self]

theorem naiveMin_replicate (n c : Nat) (hc : c ≤ 65535) :
    naiveMin (List.replicate (n + 1) c) = c := by
  induction n with
  | zero => simp [naiveMin, min_eq_left hc]
  | succ k ih => rw [List.replicate_succ, naiveMin, ih, min_self]

/-- Claim C1 (counterexample): on a frame of `2 ^ 55` samples all equal to
1023 — every sample in `[0, 1023]`, the frame non-empty — the `usize`
accumulator wraps (`1023 · 2 ^ 55 ≥ 2 ^ 64`), so `parse_frame` returns
`min = max = 1` but `avg = 511/1023 < min`: the claimed invariant
`min ≤ avg` fails. -/
theorem parse_frame_wrap_counterexample :
    parse_frame (List.replicate (2 ^ 55) 1023) =
      Except.ok { max := 1, min := 1, avg := 511 / 1023 }
    ∧ ¬ ((1 : ℚ) ≤ 511 / 1023) := by
  constructor
  · have h55 : (2 : ℕ) ^ 55 = (2 ^ 55 - 1) + 1 := by norm_num
    have hne : List.replicate (2 ^ 55) (1023 : ℕ) ≠ [] := by
      rw [h55, List.replicate_succ]
      exact List.cons_ne_nil _ _
    rw [parse_frame_ok _ hne]
    have hmax : naiveMax (List.replicate (2 ^ 55) (1023 : ℕ)) = 1023 := by
      rw [h55]; exact naiveMax_replicate _ _
    have hmin : naiveMin (List.replicate (2 ^ 55) (1023 : ℕ)) = 1023 := by
      rw [h55]; exact naiveMin_replicate _ _ (by norm_num)
    have hsum : (List.replicate (2 ^ 55) (1023 : ℕ)).sum = 2 ^ 55 * 1023 :=
      List.sum_const_nat _ _
    have hlen : (List.replicate (2 ^ 55) (1023 : ℕ)).length = 2 ^ 55 :=
      List.length_replicate _ _
    unfold frameStats
    rw [reduceTriple_closed, hmax, hmin, hsum, hlen]
    have havg : 2 ^ 55 * 1023 % 2 ^ 64 / 2 ^ 55 % 2 ^ 16 = 511 := by norm_num
    rw [havg, yuv420_eq_of_le (by norm_num), yuv420_eq_of_le (by norm_num)]
    norm_num
  · norm_num

/-! ### Partition invariance of the `(min, max, sum)` reduction -/

theorem localTriple_foldl (l : List Nat) : ∀ a m n,
    l.foldl (fun acc x => (min acc.1 x, max acc.2.1 x, acc.2.2 + x)) (n, m, a)
    = (l.foldl min n, l.foldl max m, a + l.sum) := by
  induction l with
  | nil => intro a m n; simp
  | cons x xs ih =>
      intro a m n
      simp only [List.foldl_cons, List.sum_cons]
      rw [ih (a + x) (max m x) (min n x), Nat.add_assoc]

theorem localTriple_closed (l : List Nat) :
    localTriple l = (naiveMin l, naiveMax l, l.sum) := by
  unfold localTriple
  rw [localTriple_foldl l 0 0 65535, Nat.zero_add, foldl_max_naive,
    foldl_min_naive l 65535 le_rfl, Nat.zero_max, min_eq_right (naiveMin_le_top l)]

theorem naiveMin_append (l₁ l₂ : List Nat) :
    naiveMin (l₁ ++ l₂) = min (naiveMin l₁) (naiveMin l₂) := by
  induction l₁ with
  | nil => simp [naiveMin, min_eq_right (naiveMin_le_top l₂)]
  | cons x xs ih => simp only [List.cons_append, List.append_eq, naiveMin, ih, min_assoc]

theorem naiveMax_append (l₁ l₂ : List Nat) :
    naiveMax (l₁ ++ l₂) = max (naiveMax l₁) (naiveMax l₂) := by
  induction l₁ with
  | nil => simp [naiveMax]
  | cons x xs ih => simp only [List.cons_append, List.append_eq, naiveMax, ih, max_assoc]

theorem localTriple_append (l₁ l₂ : List Nat) :
    localTriple (l₁ ++ l₂) = combine (localTriple l₁) (localTriple l₂) := by
  simp [localTriple_closed, combine, naiveMin_append, naiveMax_append]

theorem foldl_combine_join (parts : List (List Nat)) : ∀ l₀ : List Nat,
    (parts.map localTriple).foldl combine (localTriple l₀) = localTriple (l₀ ++ parts.flatten) := by
  induction parts with
  | nil => intro l₀; simp
  | cons p ps ih =>
      intro l₀
      simp only [List.map_cons, List.foldl_cons, List.flatten_cons]
      rw [← localTriple_append, ih (l₀ ++ p), List.append_assoc]

/-- Claim C6: for every sequence of samples and every way of splitting it
into contiguous partitions, reducing each partition to a local
`(min, max, sum)` triple and folding the combine operator of the spec over
the local triples yields the same triple as a single pass over the whole
sequence, unconditionally; the single pass agrees with the `parse_frame`
loop exactly on the min and max components and modulo the 64-bit
accumulator width on the sum component; and `combine` is associative and
commutative. -/
theorem reduction_partition_invariance (l : List Nat) (parts : List (List Nat))
    (hparts : parts.flatten = l) :
    (parts.map localTriple).foldl combine (65535, 0, 0) = localTriple l
    ∧ localTriple l = (naiveMin l, naiveMax l, l.sum)
    ∧ (reduceTriple l).2.2 = naiveMin l
    ∧ (reduceTriple l).2.1 = naiveMax l
    ∧ (reduceTriple l).1 = l.sum % 2 ^ 64
    ∧ (∀ a b c, combine (combine a b) c = combine a (combine b c))
    ∧ (∀ a b, combine a b = combine b a) := by
  refine ⟨?_, localTriple_closed l, ?_, ?_, ?_, ?_, ?_⟩
  · have h := foldl_combine_join parts []
    simp only [List.nil_append] at h
    rw [← hparts]
    exact h
  · rw [reduceTriple_closed]
  · rw [reduceTriple_closed]
  · rw [reduceTriple_closed]
  · intro a b c
    simp [combine, min_assoc, max_assoc, Nat.add_assoc]
  · intro a b
    simp [combine, min_comm, max_comm, Nat.add_comm]

/-- Witness for `reduction_partition_invariance`: the sequence `[3, 5, 2]`
split into the partitions `[3]` and `[5, 2]`. -/
theorem reduction_partition_invariance_witness :
    ([[3], [5, 2]].map localTriple).foldl combine (65535, 0, 0) = localTriple [3, 5, 2]
    ∧ localTriple [3, 5, 2] = (naiveMin [3, 5, 2], naiveMax [3, 5, 2], [3, 5, 2].sum)
    ∧ (reduceTriple [3, 5, 2]).2.2 = naiveMin [3, 5, 2]
    ∧ (reduceTriple [3, 5, 2]).2.1 = naiveMax [3, 5, 2]
    ∧ (reduceTriple [3, 5, 2]).1 = [3, 5, 2].sum % 2 ^ 64
    ∧ (∀ a b c, combine (combine a b) c = combine a (combine b c))
    ∧ (∀ a b, combine a b = combine b a) :=
  reduction_partition_invariance [3, 5, 2] [[3], [5, 2]] (by decide)

/-! ### The flush phase -/

/-- Claim C5 (counterexample): draining one buffered frame `[512]` after
end-of-stream leaves `results` empty — the flush loop does not apply
`parse_frame` (whose result on that frame exists and is the constant
`512/1023` record) and does not append anything to `results`. -/
theorem flush_discards_frame_counterexample :
    (flushFrames [[512]] ⟨0, []⟩).results = []
    ∧ parse_frame [512] = Except.ok ⟨512 / 1023, 512 / 1023, 512 / 1023⟩
    ∧ ([] : List FrameInfo) ≠ [⟨512 / 1023, 512 / 1023, 512 / 1023⟩] := by
  refine ⟨rfl, ?_, by simp⟩
  have h : parse_frame [512] = Except.ok (frameStats [512]) :=
    parse_frame_ok [512] (by simp)
  rw [h]
  unfold frameStats
  rw [reduceTriple_closed]
  norm_num [naiveMax, naiveMin, yuv420_eq_of_le]

/-- Claim C5 (amended): after end-of-stream the pipeline drains every
buffered frame the decoder still holds, but it only increments the frame
counter and logs; it does not run `parse_frame` on the drained frames and
leaves the results sequence unchanged, so their statistics are discarded. -/
theorem flushFrames_only_counts (buffered : List (List Nat)) (s : PipelineState) :
    (flushFrames buffered s).results = s.results
    ∧ (flushFrames buffered s).frame_count = s.frame_count + buffered.length := by
  induction buffered generalizing s with
  | nil => simp [flushFrames]
  | cons f fs ih =>
      have h := ih { frame_count := s.frame_count + 1, results := s.results }
      unfold flushFrames at h ⊢
      simp only [List.foldl_cons, List.length_cons]
      refine ⟨h.1, ?_⟩
      rw [h.2]
      dsimp only
      omega

/-! ### Empty-input behaviour -/

/-- Claim C4 (counterexample): on empty input both stages do fail fast —
`parse_frame []` and the clip aggregation on `[]` return no value — but
the diagnostics are the generic Rust panic messages (integer division by
zero, `Option::unwrap` on `None`); neither message mentions the empty
input, so the claimed stage-and-cause-identifying diagnostic does not
exist. -/
theorem empty_input_generic_diagnostic :
    parse_frame [] = Except.error "attempt to divide by zero"
    ∧ clipStats [] = Except.error "called Option::unwrap() on a None value"
    ∧ mentionsToken "empty".toList "attempt to divide by zero".toList = false
    ∧ mentionsToken "empty".toList "called Option::unwrap() on a None value".toList = false :=
  ⟨rfl, rfl, by decide, by decide⟩

/-- Claim C4 (amended): calling `parse_frame` or the clip aggregation with an
empty sequence fails fast — no `FrameInfo` or summary is produced, no
sentinel is returned — by panicking with the generic divide-by-zero
(per-frame) and unwrap-on-`None` (clip-level) messages. -/
theorem empty_input_fails_fast :
    parse_frame [] = Except.error "attempt to divide by zero"
    ∧ clipStats [] = Except.error "called Option::unwrap() on a None value" :=
  ⟨rfl, rfl⟩

/-! ### Clip-level aggregation -/

theorem qListMax_cons_max (x y : ℚ) (ys : List ℚ) :
    qListMax (max x y :: ys) = max x (qListMax (y :: ys)) := by
  cases ys with
  | nil => simp [qListMax]
  | cons z zs => simp [qListMax, max_assoc]

theorem foldl_max_qListMax (xs : List ℚ) : ∀ x, xs.foldl max x = qListMax (x :: xs) := by
  induction xs with
  | nil => intro x; simp [qListMax]
  | cons y ys ih =>
      intro x
      simp only [List.foldl_cons]
      rw [ih (max x y), qListMax_cons_max]
      simp [qListMax]

theorem max?_eq_qListMax (x : ℚ) (xs : List ℚ) :
    (x :: xs).max? = some (qListMax (x :: xs)) := by
  simp only [List.max?]
  rw [foldl_max_qListMax]

/-- Claim C2: for every non-empty results sequence, the clip-level summary
computed by `plot` satisfies: `maxcll` is the maximum over frames of the
per-frame `max`, `maxfall` is the maximum over frames of the per-frame
`avg`, and the `_avg` fields are the arithmetic means of the per-frame
`max`/`avg` fields over the whole sequence — each value then expressed in
nits through `pq_to_nits`. -/
theorem clipStats_aggregation (results : List FrameInfo) (hne : results ≠ []) :
    clipStats results = Except.ok
      { maxfall := pq_to_nits ((qListMax (results.map FrameInfo.avg) : ℚ) : ℝ)
        maxfall_avg := pq_to_nits (((results.map FrameInfo.avg).sum / (results.length : ℚ) : ℚ) : ℝ)
        maxcll := pq_to_nits ((qListMax (results.map FrameInfo.max) : ℚ) : ℝ)
        maxcll_avg := pq_to_nits (((results.map FrameInfo.max).sum / (results.length : ℚ) : ℚ) : ℝ)
        max_min := pq_to_nits ((qListMax (results.map FrameInfo.min) : ℚ) : ℝ) } := by
  obtain ⟨r, rs, rfl⟩ := List.exists_cons_of_ne_nil hne
  unfold clipStats
  rw [List.map_cons, List.map_cons, List.map_cons, max?_eq_qListMax, max?_eq_qListMax,
    max?_eq_qListMax]

/-- Witness for `clipStats_aggregation` at the single-frame results
sequence `[{max := 1/2, min := 0, avg := 1/4}]`. -/
theorem clipStats_aggregation_witness :
    clipStats [⟨1/2, 0, 1/4⟩] = Except.ok
      { maxfall := pq_to_nits ((qListMax ([⟨1/2, 0, 1/4⟩].map FrameInfo.avg) : ℚ) : ℝ)
        maxfall_avg := pq_to_nits ((([⟨1/2, 0, 1/4⟩].map FrameInfo.avg).sum / (([⟨1/2, 0, 1/4⟩] : List FrameInfo).length : ℚ) : ℚ) : ℝ)
        maxcll := pq_to_nits ((qListMax ([⟨1/2, 0, 1/4⟩].map FrameInfo.max) : ℚ) : ℝ)
        maxcll_avg := pq_to_nits ((([⟨1/2, 0, 1/4⟩].map FrameInfo.max).sum / (([⟨1/2, 0, 1/4⟩] : List FrameInfo).length : ℚ) : ℚ) : ℝ)
        max_min := pq_to_nits ((qListMax ([⟨1/2, 0, 1/4⟩].map FrameInfo.min) : ℚ) : ℝ) } :=
  clipStats_aggregation [⟨1/2, 0, 1/4⟩] (by simp)

/-! ### The PQ transform -/

theorem clamp01_comm (x : ℝ) : min (max x 0) 1 = max 0 (min x 1) := by
  rw [max_min_distrib_left, max_comm (0 : ℝ) x, max_eq_right (zero_le_one' ℝ)]

theorem ST2084_M1_eq : ST2084_M1 = 2610 / 16384 := by norm_num [ST2084_M1]

theorem ST2084_M2_eq : ST2084_M2 = (2523 / 4096) * 128 := by norm_num [ST2084_M2]

theorem ST2084_C1_eq : ST2084_C1 = 3424 / 4096 := by norm_num [ST2084_C1]

theorem ST2084_C2_eq : ST2084_C2 = (2413 / 4096) * 32 := by norm_num [ST2084_C2]

theorem ST2084_C3_eq : ST2084_C3 = (2392 / 4096) * 32 := by norm_num [ST2084_C3]

theorem ST2084_Y_MAX_eq : ST2084_Y_MAX = 10000 := by norm_num [ST2084_Y_MAX]

/-- Claim C3: `pq_to_nits` first clamps its input to `[0, 1]` and then
computes exactly the ST 2084 inverse-EOTF formula of the spec, with the
constants of the spec; it is a total function (clamping replaces every
out-of-domain input, so no input raises), hence applying it to any input
agrees with applying it to the clamped input. -/
theorem pq_to_nits_eq_formula (pq : ℝ) :
    pq_to_nits pq = pq_to_nits_formula pq
    ∧ pq_to_nits pq = pq_to_nits (min (max pq 0) 1) := by
  constructor
  · have hmc : ∀ a b : ℝ, max (a - b) 0 = max 0 (a - b) := fun a b => max_comm _ _
    simp only [pq_to_nits, pq_to_nits_formula, ST2084_M1_eq, ST2084_M2_eq, ST2084_C1_eq,
      ST2084_C2_eq, ST2084_C3_eq, ST2084_Y_MAX_eq, clamp01_comm, hmc]
  · have h0 : (0 : ℝ) ≤ min (max pq 0) 1 := le_min (le_max_right pq 0) zero_le_one
    have h1 : min (max pq 0) 1 ≤ 1 := min_le_right _ _
    have hc : min (max (min (max pq 0) 1) 0) 1 = min (max pq 0) 1 := by
      rw [max_eq_left h0, min_eq_left h1]
    simp only [pq_to_nits]
    rw [hc]

/-- Claim C7: `pq_to_nits` is monotonically non-decreasing on the clamped
domain: for `0 ≤ a < b ≤ 1`, `pq_to_nits a ≤ pq_to_nits b`. -/
theorem pq_to_nits_mono (a b : ℝ) (ha : 0 ≤ a) (hab : a < b) (hb : b ≤ 1) :
    pq_to_nits a ≤ pq_to_nits b := by
  have ha1 : a ≤ 1 := hab.le.trans hb
  have hb0 : 0 ≤ b := ha.trans hab.le
  have hca : min (max a 0) 1 = a := by rw [max_eq_left ha, min_eq_left ha1]
  have hcb : min (max b 0) 1 = b := by rw [max_eq_left hb0, min_eq_left hb]
  simp only [pq_to_nits, hca, hcb]
  have hM2pos : (0 : ℝ) ≤ 1 / ST2084_M2 := by norm_num [ST2084_M2]
  have hvab : a ^ ((1 : ℝ) / ST2084_M2) ≤ b ^ ((1 : ℝ) / ST2084_M2) :=
    Real.rpow_le_rpow ha hab.le hM2pos
  have hvb1 : b ^ ((1 : ℝ) / ST2084_M2) ≤ 1 := Real.rpow_le_one hb0 hb hM2pos
  set va := a ^ ((1 : ℝ) / ST2084_M2) with hva
  set vb := b ^ ((1 : ℝ) / ST2084_M2) with hvb
  have hC3nn : (0 : ℝ) ≤ ST2084_C3 := by norm_num [ST2084_C3]
  have hdb : 0 < ST2084_C2 - ST2084_C3 * vb := by
    have h1 : ST2084_C3 * vb ≤ ST2084_C3 * 1 := mul_le_mul_of_nonneg_left hvb1 hC3nn
    have h2 : ST2084_C3 * 1 < ST2084_C2 := by norm_num [ST2084_C2, ST2084_C3]
    linarith
  have hda : ST2084_C2 - ST2084_C3 * vb ≤ ST2084_C2 - ST2084_C3 * va := by
    have := mul_le_mul_of_nonneg_left hvab hC3nn
    linarith
  have hnum : max (va - ST2084_C1) 0 ≤ max (vb - ST2084_C1) 0 :=
    max_le_max (by linarith) le_rfl
  have hdiv : max (va - ST2084_C1) 0 / (ST2084_C2 - ST2084_C3 * va)
      ≤ max (vb - ST2084_C1) 0 / (ST2084_C2 - ST2084_C3 * vb) :=
    div_le_div₀ (le_max_right _ _) hnum hdb hda
  have hM1pos : (0 : ℝ) ≤ 1 / ST2084_M1 := by norm_num [ST2084_M1]
  have hbase0 : 0 ≤ max (va - ST2084_C1) 0 / (ST2084_C2 - ST2084_C3 * va) :=
    div_nonneg (le_max_right _ _) (le_of_lt (lt_of_lt_of_le hdb hda))
  have hr := Real.rpow_le_rpow hbase0 hdiv hM1pos
  have hY : (0 : ℝ) ≤ ST2084_Y_MAX := by norm_num [ST2084_Y_MAX]
  exact mul_le_mul_of_nonneg_right hr hY

/-- Witness for `pq_to_nits_mono` at the endpoints `0 < 1`. -/
theorem pq_to_nits_mono_witness : pq_to_nits 0 ≤ pq_to_nits 1 :=
  pq_to_nits_mono 0 1 le_rfl one_pos le_rfl

theorem round_trip_exact (x : ℝ) (h0 : 0 ≤ x) (h1 : x ≤ 10000) :
    pq_to_nits (nits_to_pq x) = x := by
  have hYe : ST2084_Y_MAX = 10000 := ST2084_Y_MAX_eq
  have hy0 : 0 ≤ x / ST2084_Y_MAX := by rw [hYe]; positivity
  have hy1 : x / ST2084_Y_MAX ≤ 1 := by
    rw [hYe, div_le_one (by norm_num)]; exact h1
  have hM1pos : (0 : ℝ) < ST2084_M1 := by norm_num [ST2084_M1]
  have hM2pos : (0 : ℝ) < ST2084_M2 := by norm_num [ST2084_M2]
  simp only [nits_to_pq]
  set y := x / ST2084_Y_MAX with hy
  set t := y ^ ST2084_M1 with ht
  have ht0 : 0 ≤ t := Real.rpow_nonneg hy0 _
  have ht1 : t ≤ 1 := Real.rpow_le_one hy0 hy1 hM1pos.le
  have hC3nn : (0 : ℝ) ≤ ST2084_C3 := by norm_num [ST2084_C3]
  have hden : (0 : ℝ) < 1 + ST2084_C3 * t := by nlinarith
  set B := (ST2084_C1 + ST2084_C2 * t) / (1 + ST2084_C3 * t) with hB
  have hB0 : 0 ≤ B := by
    apply div_nonneg _ hden.le
    have hc1 : (0 : ℝ) ≤ ST2084_C1 := by norm_num [ST2084_C1]
    have hc2 : (0 : ℝ) ≤ ST2084_C2 := by norm_num [ST2084_C2]
    nlinarith
  have hB1 : B ≤ 1 := by
    rw [hB, div_le_one hden]
    have h21 : ST2084_C2 - ST2084_C3 = 1 - ST2084_C1 := by
      norm_num [ST2084_C1, ST2084_C2, ST2084_C3]
    have hpos : (0 : ℝ) < ST2084_C2 - ST2084_C3 := by norm_num [ST2084_C2, ST2084_C3]
    nlinarith [mul_le_mul_of_nonneg_left ht1 hpos.le]
  have hBM0 : 0 ≤ B ^ ST2084_M2 := Real.rpow_nonneg hB0 _
  have hBM1 : B ^ ST2084_M2 ≤ 1 := Real.rpow_le_one hB0 hB1 hM2pos.le
  simp only [pq_to_nits]
  rw [max_eq_left hBM0, min_eq_left hBM1]
  have hv : (B ^ ST2084_M2) ^ ((1 : ℝ) / ST2084_M2) = B := by
    rw [← Real.rpow_mul hB0, mul_one_div, div_self (ne_of_gt hM2pos), Real.rpow_one]
  rw [hv]
  have hKpos : (0 : ℝ) < ST2084_C2 - ST2084_C1 * ST2084_C3 := by
    norm_num [ST2084_C1, ST2084_C2, ST2084_C3]
  have hdne : (1 + ST2084_C3 * t) ≠ 0 := ne_of_gt hden
  have hBnum : B - ST2084_C1
      = (ST2084_C2 - ST2084_C1 * ST2084_C3) * t / (1 + ST2084_C3 * t) := by
    rw [hB]
    field_simp
    ring
  have hBden : ST2084_C2 - ST2084_C3 * B
      = (ST2084_C2 - ST2084_C1 * ST2084_C3) / (1 + ST2084_C3 * t) := by
    rw [hB]
    field_simp
    ring
  have hmax : max (B - ST2084_C1) 0 = B - ST2084_C1 := by
    apply max_eq_left
    rw [hBnum]
    exact div_nonneg (mul_nonneg hKpos.le ht0) hden.le
  have hratio : max (B - ST2084_C1) 0 / (ST2084_C2 - ST2084_C3 * B) = t := by
    rw [hmax, hBnum, hBden]
    have hKne : ST2084_C2 - ST2084_C1 * ST2084_C3 ≠ 0 := ne_of_gt hKpos
    field_simp
  rw [hratio]
  have htv : t ^ ((1 : ℝ) / ST2084_M1) = y := by
    rw [ht, ← Real.rpow_mul hy0, mul_one_div, div_self (ne_of_gt hM1pos), Real.rpow_one]
  rw [htv, hy, hYe]
  field_simp

/-- Claim C8: `nits_to_pq` inverts `pq_to_nits` on `[0, 10000]`: the round
trip is in fact exact on the real-number model, so in particular it is
within `1e-4` relative error. -/
theorem pq_nits_round_trip (x : ℝ) (h0 : 0 ≤ x) (h1 : x ≤ 10000) :
    pq_to_nits (nits_to_pq x) = x
    ∧ |pq_to_nits (nits_to_pq x) - x| ≤ (1 / 10000) * x := by
  have h := round_trip_exact x h0 h1
  refine ⟨h, ?_⟩
  rw [h, sub_self, abs_zero]
  positivity

/-- Witness for `pq_nits_round_trip` at `x = 10000` nits. -/
theorem pq_nits_round_trip_witness :
    pq_to_nits (nits_to_pq 10000) = 10000
    ∧ |pq_to_nits (nits_to_pq 10000) - 10000| ≤ (1 / 10000) * 10000 :=
  pq_nits_round_trip 10000 (by norm_num) (by norm_num)

end MeasureHdr
